import Mathlib

set_option autoImplicit false
set_option maxRecDepth 4000

/-!
Verification of the security-inspection data pipeline of the nginx-datadog
module.  The definitions below are shallow embeddings of the C++ code in
`src/security/collection.cpp` and `src/security/blocking.cpp`; theorems
check the natural-language specification against them.
-/

namespace NginxDatadog

/-!
## Keyed-pair sources and the key-aggregation algorithm

`req_serializer::set_value_from_iter` (collection.cpp, lines 102-161)
consumes an iterator yielding (key, value, is-deleted) triples in two
passes: pass 1 counts occurrences per key, pass 2 fills a map with one
entry per distinct key (scalar string for a unique key, array otherwise).
A keyed-pair source is modelled as the list of triples a full traversal
yields; both passes traverse the same list.
-/

structure KvTriple where
  key : String
  value : String
  deleted : Bool
deriving DecidableEq, Repr

/-- Pass 1 of `set_value_from_iter`: `keys_bag[key]`, the number of
occurrences of `k` in the source (deleted occurrences still count). -/
def count_key (src : List KvTriple) (k : String) : Nat :=
  (src.filter (fun t => t.key == k)).length

/-- All values carried by occurrences of key `k`, in source order. -/
def values_of (src : List KvTriple) (k : String) : List String :=
  ((src.filter (fun t => t.key == k)).map KvTriple.value)

/-- One step of the array-filling logic of pass 2: a non-deleted occurrence
appends its value at `nbEntries++`; a deleted occurrence sets
`nbEntries = 0`, clearing the visible content of the array. -/
def vstep (acc : List String) (t : KvTriple) : List String :=
  if t.deleted then [] else acc ++ [t.value]

/-- The visible content (first `nbEntries` slots) of the array built for
key `k` after processing the whole source. -/
def visible_values (src : List KvTriple) (k : String) : List String :=
  (src.filter (fun t => t.key == k)).foldl vstep []

/-- A map entry value in the produced `ddwaf` tree: a scalar string
(`make_string`) or an array (`make_array`) described by its visible
elements. -/
inductive WafEntry where
  | str (v : String)
  | arr (elems : List String)
deriving DecidableEq, Repr

/-- State of pass 2: the map entries written so far (in `next_free_entry`
order) and the keys registered in `indexed_entries`. -/
structure AggState where
  entries : List (String × WafEntry)
  indexed : List String
deriving Repr

/-- Effect of one subsequent occurrence on an already-allocated array
entry (collection.cpp, lines 150-159). -/
def upd_entry (e : WafEntry) (t : KvTriple) : WafEntry :=
  match e with
  | .arr elems => if t.deleted then .arr [] else .arr (elems ++ [t.value])
  | .str v => .str v

/-- In-place update of the (unique) already-written entry for `key`,
mirroring the write through the `indexed_entries` pointer. -/
def update_arr (key : String) (t : KvTriple) :
    List (String × WafEntry) → List (String × WafEntry)
  | [] => []
  | (k, e) :: rest =>
    if k = key then (k, upd_entry e t) :: rest
    else (k, e) :: update_arr key t rest

/-- One iteration of pass 2 of `set_value_from_iter` (collection.cpp,
lines 125-160): a key counted once gets a scalar entry on its (only)
occurrence; otherwise the first occurrence allocates an array entry and
registers the key, and later occurrences update that array. -/
def svfi_step (counts : String → Nat) (st : AggState) (t : KvTriple) : AggState :=
  if counts t.key = 1 then
    { st with entries := st.entries ++ [(t.key, .str t.value)] }
  else if st.indexed.contains t.key then
    { st with entries := update_arr t.key t st.entries }
  else
    { entries := st.entries ++ [(t.key, .arr (if t.deleted then [] else [t.value]))],
      indexed := st.indexed ++ [t.key] }

/-- `req_serializer::set_value_from_iter`: the aggregated map produced
from a keyed-pair source, as the ordered list of its entries. -/
def set_value_from_iter (src : List KvTriple) : List (String × WafEntry) :=
  (src.foldl (svfi_step (count_key src)) ⟨[], []⟩).entries

/-- Distinct elements of a list, keeping first occurrences in order:
the order in which pass 2 commits one map entry per distinct key. -/
def dedup_first_aux (seen : List String) : List String → List String
  | [] => []
  | k :: rest =>
    if seen.contains k then dedup_first_aux seen rest
    else k :: dedup_first_aux (seen ++ [k]) rest

def dedup_first (l : List String) : List String :=
  dedup_first_aux [] l

/-- The entry the algorithm produces for key `k` of the source `p`:
scalar holding the single value if the key was counted once, otherwise
the array with the visible values. -/
def entry_for (counts : String → Nat) (p : List KvTriple) (k : String) : WafEntry :=
  if counts k = 1 then .str ((values_of p k).headD "")
  else .arr (visible_values p k)

/-- Pass-2 loop invariant, after having consumed the prefix `p`. -/
def Inv (counts : String → Nat) (p : List KvTriple) (st : AggState) : Prop :=
  st.entries = (dedup_first (p.map KvTriple.key)).map (fun k => (k, entry_for counts p k))
  ∧ ∀ k, k ∈ st.indexed ↔ (k ∈ p.map KvTriple.key ∧ counts k ≠ 1)

/-! ### Basic lemmas about counting, dedup and the auxiliary maps -/

theorem count_key_append (xs ys : List KvTriple) (k : String) :
    count_key (xs ++ ys) k = count_key xs k + count_key ys k := by
  simp [count_key, List.filter_append]

theorem count_key_cons_self (t : KvTriple) (q : List KvTriple) :
    count_key (t :: q) t.key = count_key q t.key + 1 := by
  simp [count_key, List.filter_cons]

theorem mem_keys_iff_count_pos (src : List KvTriple) (k : String) :
    k ∈ src.map KvTriple.key ↔ 0 < count_key src k := by
  induction src with
  | nil => simp [count_key]
  | cons t q ih =>
    by_cases h : t.key = k
    · subst h
      simp [count_key_cons_self]
    · simp only [List.map_cons, List.mem_cons]
      rw [show count_key (t :: q) k = count_key q k by
        simp [count_key, List.filter_cons, h]]
      constructor
      · rintro (h' | h')
        · exact absurd h'.symm h
        · exact ih.mp h'
      · intro h'
        exact Or.inr (ih.mpr h')

theorem values_of_length (src : List KvTriple) (k : String) :
    (values_of src k).length = count_key src k := by
  simp [values_of, count_key]

theorem filter_key_concat_ne (p : List KvTriple) (t : KvTriple) (k : String)
    (h : ¬ t.key = k) :
    (p ++ [t]).filter (fun s => s.key == k) = p.filter (fun s => s.key == k) := by
  simp [List.filter_append, List.filter_cons, h]

theorem filter_key_concat_eq (p : List KvTriple) (t : KvTriple) (k : String)
    (h : t.key = k) :
    (p ++ [t]).filter (fun s => s.key == k)
      = p.filter (fun s => s.key == k) ++ [t] := by
  simp [List.filter_append, List.filter_cons, h]

theorem values_of_concat_ne (p : List KvTriple) (t : KvTriple) (k : String)
    (h : ¬ t.key = k) : values_of (p ++ [t]) k = values_of p k := by
  simp [values_of, filter_key_concat_ne p t k h]

theorem values_of_concat_eq (p : List KvTriple) (t : KvTriple) (k : String)
    (h : t.key = k) : values_of (p ++ [t]) k = values_of p k ++ [t.value] := by
  simp [values_of, filter_key_concat_eq p t k h]

theorem visible_values_concat_ne (p : List KvTriple) (t : KvTriple) (k : String)
    (h : ¬ t.key = k) : visible_values (p ++ [t]) k = visible_values p k := by
  simp [visible_values, filter_key_concat_ne p t k h]

theorem visible_values_concat_eq (p : List KvTriple) (t : KvTriple) (k : String)
    (h : t.key = k) :
    visible_values (p ++ [t]) k = vstep (visible_values p k) t := by
  simp [visible_values, filter_key_concat_eq p t k h]

theorem entry_for_concat_ne (counts : String → Nat) (p : List KvTriple)
    (t : KvTriple) (k : String) (h : ¬ t.key = k) :
    entry_for counts (p ++ [t]) k = entry_for counts p k := by
  unfold entry_for
  rw [values_of_concat_ne p t k h, visible_values_concat_ne p t k h]

theorem mem_dedup_first_aux (seen l : List String) (x : String) :
    x ∈ dedup_first_aux seen l ↔ (x ∈ l ∧ x ∉ seen) := by
  induction l generalizing seen with
  | nil => simp [dedup_first_aux]
  | cons k rest ih =>
    by_cases h : k ∈ seen
    · have e : dedup_first_aux seen (k :: rest) = dedup_first_aux seen rest := by
        simp [dedup_first_aux, List.contains, h]
      rw [e, ih]
      simp only [List.mem_cons]
      constructor
      · rintro ⟨hx, hns⟩
        exact ⟨Or.inr hx, hns⟩
      · rintro ⟨hx | hx, hns⟩
        · exact absurd (hx ▸ h) hns
        · exact ⟨hx, hns⟩
    · have e : dedup_first_aux seen (k :: rest)
          = k :: dedup_first_aux (seen ++ [k]) rest := by
        simp [dedup_first_aux, List.contains, h]
      rw [e]
      simp only [List.mem_cons, ih, List.mem_append, List.mem_singleton]
      constructor
      · rintro (hx | ⟨hx, hns⟩)
        · subst hx
          exact ⟨Or.inl rfl, h⟩
        · exact ⟨Or.inr hx, fun hc => hns (Or.inl hc)⟩
      · rintro ⟨hx | hx, hns⟩
        · exact Or.inl hx
        · by_cases hxk : x = k
          · exact Or.inl hxk
          · refine Or.inr ⟨hx, fun hc => ?_⟩
            rcases hc with h1 | h1 | h1
            · exact hns h1
            · exact hxk h1
            · simp at h1

theorem mem_dedup_first (l : List String) (x : String) :
    x ∈ dedup_first l ↔ x ∈ l := by
  simp [dedup_first, mem_dedup_first_aux]

theorem nodup_dedup_first_aux (seen l : List String) :
    (dedup_first_aux seen l).Nodup := by
  induction l generalizing seen with
  | nil => simp [dedup_first_aux]
  | cons k rest ih =>
    by_cases h : k ∈ seen
    · have e : dedup_first_aux seen (k :: rest) = dedup_first_aux seen rest := by
        simp [dedup_first_aux, List.contains, h]
      rw [e]
      exact ih seen
    · have e : dedup_first_aux seen (k :: rest)
          = k :: dedup_first_aux (seen ++ [k]) rest := by
        simp [dedup_first_aux, List.contains, h]
      rw [e]
      refine List.nodup_cons.mpr ⟨?_, ih (seen ++ [k])⟩
      intro hk
      have := (mem_dedup_first_aux (seen ++ [k]) rest k).mp hk
      simp at this

theorem nodup_dedup_first (l : List String) : (dedup_first l).Nodup :=
  nodup_dedup_first_aux [] l

theorem dedup_first_aux_concat (seen l : List String) (x : String) :
    dedup_first_aux seen (l ++ [x])
      = dedup_first_aux seen l ++ (if x ∈ seen ∨ x ∈ l then [] else [x]) := by
  induction l generalizing seen with
  | nil =>
    by_cases h : x ∈ seen <;> simp [dedup_first_aux, List.contains, h]
  | cons k rest ih =>
    by_cases h : k ∈ seen
    · have hcond : (x ∈ seen ∨ x ∈ rest) ↔ (x ∈ seen ∨ x ∈ k :: rest) := by
        simp only [List.mem_cons]
        constructor
        · rintro (hx | hx)
          · exact Or.inl hx
          · exact Or.inr (Or.inr hx)
        · rintro (hx | hx | hx)
          · exact Or.inl hx
          · exact Or.inl (hx ▸ h)
          · exact Or.inr hx
      have e1 : dedup_first_aux seen ((k :: rest) ++ [x])
          = dedup_first_aux seen (rest ++ [x]) := by
        simp [dedup_first_aux, List.contains, h]
      have e2 : dedup_first_aux seen (k :: rest) = dedup_first_aux seen rest := by
        simp [dedup_first_aux, List.contains, h]
      rw [e1, e2, ih]
      congr 1
      rw [if_congr hcond rfl rfl]
    · have hcond : (x ∈ seen ++ [k] ∨ x ∈ rest) ↔ (x ∈ seen ∨ x ∈ k :: rest) := by
        simp only [List.mem_append, List.mem_singleton, List.mem_cons]
        tauto
      have e1 : dedup_first_aux seen ((k :: rest) ++ [x])
          = k :: dedup_first_aux (seen ++ [k]) (rest ++ [x]) := by
        simp [dedup_first_aux, List.contains, h]
      have e2 : dedup_first_aux seen (k :: rest)
          = k :: dedup_first_aux (seen ++ [k]) rest := by
        simp [dedup_first_aux, List.contains, h]
      rw [e1, e2, ih, List.cons_append]
      congr 2
      rw [if_congr hcond rfl rfl]

theorem dedup_first_concat (l : List String) (x : String) :
    dedup_first (l ++ [x])
      = dedup_first l ++ (if x ∈ l then [] else [x]) := by
  have := dedup_first_aux_concat [] l x
  simpa [dedup_first] using this

theorem update_arr_map_form (ks : List String) (f : String → WafEntry)
    (key : String) (t : KvTriple) (hnd : ks.Nodup) :
    update_arr key t (ks.map (fun k => (k, f k)))
      = ks.map (fun k => (k, if k = key then upd_entry (f k) t else f k)) := by
  induction ks with
  | nil => simp [update_arr]
  | cons k ks ih =>
    rcases List.nodup_cons.mp hnd with ⟨hk, hnd'⟩
    by_cases h : k = key
    · subst h
      simp only [List.map_cons, update_arr, if_true, if_pos rfl]
      congr 1
      refine (List.map_congr_left ?_).symm
      intro a ha
      have : ¬ a = k := fun hak => hk (hak ▸ ha)
      simp [this]
    · simp only [List.map_cons, update_arr, if_neg h, ih hnd']

theorem lookup_map_form (ks : List String) (f : String → WafEntry) (k : String)
    (h : k ∈ ks) :
    (ks.map (fun x => (x, f x))).lookup k = some (f k) := by
  induction ks with
  | nil => simp at h
  | cons x ks ih =>
    by_cases hxk : k = x
    · subst hxk
      simp [List.lookup]
    · have hk : k ∈ ks := by
        rcases List.mem_cons.mp h with h1 | h1
        · exact absurd h1 hxk
        · exact h1
      have hbeq : (k == x) = false := by simpa using hxk
      simp only [List.map_cons, List.lookup, hbeq]
      exact ih hk

theorem filter_key_eq_nil (p : List KvTriple) (k : String)
    (h : count_key p k = 0) : p.filter (fun t => t.key == k) = [] :=
  List.length_eq_zero.mp h

theorem values_of_eq_nil (p : List KvTriple) (k : String)
    (h : count_key p k = 0) : values_of p k = [] := by
  simp [values_of, filter_key_eq_nil p k h]

theorem visible_values_eq_nil (p : List KvTriple) (k : String)
    (h : count_key p k = 0) : visible_values p k = [] := by
  simp [visible_values, filter_key_eq_nil p k h]

/-- Pass 2 of `set_value_from_iter` preserves the invariant across one
consumed triple. -/
theorem svfi_step_inv (src p q : List KvTriple) (t : KvTriple) (st : AggState)
    (hsrc : src = p ++ t :: q)
    (hinv : Inv (count_key src) p st) :
    Inv (count_key src) (p ++ [t]) (svfi_step (count_key src) st t) := by
  obtain ⟨hent, hidx⟩ := hinv
  have hkeys : (p ++ [t]).map KvTriple.key = p.map KvTriple.key ++ [t.key] := by
    simp
  by_cases h1 : count_key src t.key = 1
  · -- the key is counted once: scalar entry written on this occurrence
    have hcnt0 : count_key p t.key = 0 := by
      have hs : count_key src t.key
          = count_key p t.key + (count_key q t.key + 1) := by
        rw [hsrc, count_key_append, count_key_cons_self]
      omega
    have hnotp : t.key ∉ p.map KvTriple.key := by
      rw [mem_keys_iff_count_pos]
      omega
    have hstep : svfi_step (count_key src) st t
        = { st with entries := st.entries ++ [(t.key, .str t.value)] } := by
      simp [svfi_step, h1]
    rw [hstep]
    constructor
    · show st.entries ++ [(t.key, .str t.value)] = _
      have hnew : entry_for (count_key src) (p ++ [t]) t.key = .str t.value := by
        unfold entry_for
        rw [if_pos h1, values_of_concat_eq p t t.key rfl,
          values_of_eq_nil p t.key hcnt0]
        rfl
      rw [hkeys, dedup_first_concat, if_neg hnotp, List.map_append, hent]
      congr 1
      · refine List.map_congr_left ?_
        intro k hk
        have hkp : k ∈ p.map KvTriple.key := (mem_dedup_first _ _).mp hk
        have hne : ¬ t.key = k := fun he => hnotp (he ▸ hkp)
        rw [entry_for_concat_ne _ _ _ _ hne]
      · simp [hnew]
    · show ∀ k, k ∈ st.indexed ↔ _
      intro k
      rw [hkeys]
      by_cases hk : k = t.key
      · subst hk
        constructor
        · intro hmem
          exact absurd h1 ((hidx t.key).mp hmem).2
        · rintro ⟨_, hne⟩
          exact absurd h1 hne
      · rw [hidx k]
        constructor
        · rintro ⟨hm, hne⟩
          exact ⟨List.mem_append_left _ hm, hne⟩
        · rintro ⟨hm, hne⟩
          rcases List.mem_append.mp hm with hm' | hm'
          · exact ⟨hm', hne⟩
          · exact absurd (List.mem_singleton.mp hm') hk
  · by_cases h2 : st.indexed.contains t.key = true
    · -- subsequent occurrence of a repeated key: update the array entry
      have hmemidx : t.key ∈ st.indexed := by simpa using h2
      have hkp : t.key ∈ p.map KvTriple.key := ((hidx t.key).mp hmemidx).1
      have hstep : svfi_step (count_key src) st t
          = { st with entries := update_arr t.key t st.entries } := by
        simp [svfi_step, h1, hmemidx]
      rw [hstep]
      constructor
      · show update_arr t.key t st.entries = _
        rw [hent, update_arr_map_form _ _ _ _ (nodup_dedup_first _),
          hkeys, dedup_first_concat, if_pos hkp, List.append_nil]
        refine List.map_congr_left ?_
        intro k hk
        by_cases hkt : k = t.key
        · subst hkt
          rw [if_pos rfl]
          have harr : entry_for (count_key src) p t.key
              = .arr (visible_values p t.key) := by
            unfold entry_for
            rw [if_neg h1]
          have harr' : entry_for (count_key src) (p ++ [t]) t.key
              = .arr (vstep (visible_values p t.key) t) := by
            unfold entry_for
            rw [if_neg h1, visible_values_concat_eq p t t.key rfl]
          rw [harr, harr']
          unfold upd_entry vstep
          by_cases hd : t.deleted <;> simp [hd]
        · rw [if_neg hkt]
          have hne : ¬ t.key = k := fun he => hkt he.symm
          rw [entry_for_concat_ne _ _ _ _ hne]
      · show ∀ k, k ∈ st.indexed ↔ _
        intro k
        rw [hkeys]
        by_cases hk : k = t.key
        · subst hk
          constructor
          · intro _
            exact ⟨List.mem_append_left _ hkp, h1⟩
          · intro _
            exact hmemidx
        · rw [hidx k]
          constructor
          · rintro ⟨hm, hne⟩
            exact ⟨List.mem_append_left _ hm, hne⟩
          · rintro ⟨hm, hne⟩
            rcases List.mem_append.mp hm with hm' | hm'
            · exact ⟨hm', hne⟩
            · exact absurd (List.mem_singleton.mp hm') hk
    · -- first occurrence of a repeated key: allocate the array entry
      have hnotidx : t.key ∉ st.indexed := by
        intro hmem
        exact h2 (by simpa using hmem)
      have hnotp : t.key ∉ p.map KvTriple.key := by
        intro hmem
        exact hnotidx ((hidx t.key).mpr ⟨hmem, h1⟩)
      have hcnt0 : count_key p t.key = 0 := by
        by_contra hne
        exact hnotp (mem_keys_iff_count_pos p t.key |>.mpr (Nat.pos_of_ne_zero hne))
      have hstep : svfi_step (count_key src) st t
          = { entries := st.entries
                ++ [(t.key, .arr (if t.deleted then [] else [t.value]))],
              indexed := st.indexed ++ [t.key] } := by
        simp [svfi_step, h1, hnotidx]
      rw [hstep]
      constructor
      · show st.entries ++ _ = _
        have hnew : entry_for (count_key src) (p ++ [t]) t.key
            = .arr (if t.deleted then [] else [t.value]) := by
          unfold entry_for
          rw [if_neg h1, visible_values_concat_eq p t t.key rfl,
            visible_values_eq_nil p t.key hcnt0]
          unfold vstep
          by_cases hd : t.deleted <;> simp [hd]
        rw [hkeys, dedup_first_concat, if_neg hnotp, List.map_append, hent]
        congr 1
        · refine List.map_congr_left ?_
          intro k hk
          have hkp : k ∈ p.map KvTriple.key := (mem_dedup_first _ _).mp hk
          have hne : ¬ t.key = k := fun he => hnotp (he ▸ hkp)
          rw [entry_for_concat_ne _ _ _ _ hne]
        · simp [hnew]
      · show ∀ k, k ∈ st.indexed ++ [t.key] ↔ _
        intro k
        rw [hkeys]
        by_cases hk : k = t.key
        · subst hk
          constructor
          · intro _
            exact ⟨List.mem_append_right _ (List.mem_singleton.mpr rfl), h1⟩
          · intro _
            exact List.mem_append_right _ (List.mem_singleton.mpr rfl)
        · constructor
          · intro hm
            rcases List.mem_append.mp hm with hm' | hm'
            · obtain ⟨hmp, hne⟩ := (hidx k).mp hm'
              exact ⟨List.mem_append_left _ hmp, hne⟩
            · exact absurd (List.mem_singleton.mp hm') hk
          · rintro ⟨hm, hne⟩
            rcases List.mem_append.mp hm with hm' | hm'
            · exact List.mem_append_left _ ((hidx k).mpr ⟨hm', hne⟩)
            · exact absurd (List.mem_singleton.mp hm') hk

/-- Folding pass 2 over the remaining source keeps the invariant. -/
theorem svfi_fold_inv (src : List KvTriple) :
    ∀ (q p : List KvTriple) (st : AggState),
      src = p ++ q → Inv (count_key src) p st →
      Inv (count_key src) src (q.foldl (svfi_step (count_key src)) st) := by
  intro q
  induction q with
  | nil =>
    intro p st hsrc hinv
    have h' : src = p := by simpa using hsrc
    rw [List.foldl_nil]
    rw [h'] at hinv ⊢
    exact hinv
  | cons t q ih =>
    intro p st hsrc hinv
    rw [List.foldl_cons]
    refine ih (p ++ [t]) _ (by rw [hsrc]; simp) ?_
    exact svfi_step_inv src p q t st hsrc hinv

/-- Full characterisation of `set_value_from_iter`: one entry per distinct
key in first-occurrence order; a key counted once gets a scalar entry
carrying its value, every other key gets an array with its visible
values. -/
theorem svfi_characterization (src : List KvTriple) :
    set_value_from_iter src
      = (dedup_first (src.map KvTriple.key)).map
          (fun k => (k, entry_for (count_key src) src k)) := by
  have hinit : Inv (count_key src) [] ⟨[], []⟩ := by
    constructor
    · simp [dedup_first, dedup_first_aux]
    · intro k
      simp
  exact (svfi_fold_inv src src [] ⟨[], []⟩ (by simp) hinit).1

theorem svfi_lookup (src : List KvTriple) (k : String)
    (h : k ∈ src.map KvTriple.key) :
    (set_value_from_iter src).lookup k
      = some (entry_for (count_key src) src k) := by
  rw [svfi_characterization]
  exact lookup_map_form _ _ _ ((mem_dedup_first _ _).mpr h)

theorem foldl_vstep_no_delete (l : List KvTriple)
    (hnd : ∀ t ∈ l, t.deleted = false) :
    ∀ acc, l.foldl vstep acc = acc ++ l.map KvTriple.value := by
  induction l with
  | nil => intro acc; simp
  | cons t l ih =>
    intro acc
    have ht : t.deleted = false := hnd t (List.mem_cons_self t l)
    rw [List.foldl_cons, show vstep acc t = acc ++ [t.value] by simp [vstep, ht],
      ih (fun s hs => hnd s (List.mem_cons_of_mem t hs))]
    simp

theorem foldl_vstep_all_deleted (l : List KvTriple) (hl : l ≠ [])
    (hd : ∀ t ∈ l, t.deleted = true) : ∀ acc, l.foldl vstep acc = [] := by
  induction l with
  | nil => exact absurd rfl hl
  | cons t l ih =>
    intro acc
    rw [List.foldl_cons,
      show vstep acc t = [] by simp [vstep, hd t (List.mem_cons_self t l)]]
    by_cases h : l = []
    · subst h
      simp
    · exact ih h (fun s hs => hd s (List.mem_cons_of_mem t hs)) []

theorem visible_eq_values_of_no_delete (src : List KvTriple) (k : String)
    (hnd : ∀ t ∈ src, t.deleted = false) :
    visible_values src k = values_of src k := by
  unfold visible_values values_of
  rw [foldl_vstep_no_delete _
    (fun t ht => hnd t (List.mem_of_mem_filter ht)) []]
  simp

/-- A key whose list of values is a singleton is counted once and gets a
scalar entry holding that value. -/
theorem svfi_lookup_scalar (src : List KvTriple) (k v : String)
    (h : values_of src k = [v]) :
    (set_value_from_iter src).lookup k = some (.str v) := by
  have hcnt : count_key src k = 1 := by
    rw [← values_of_length, h]
    rfl
  have hmem : k ∈ src.map KvTriple.key := by
    rw [mem_keys_iff_count_pos]
    omega
  rw [svfi_lookup src k hmem]
  unfold entry_for
  rw [if_pos hcnt, h]
  rfl

/-- C2: for every keyed-pair source with no delete-marked occurrences the
aggregation produces one map entry per distinct key; a key with a single
occurrence maps to a scalar string entry holding its value, and a key
occurring more than once maps to an array entry holding exactly its
values in source order. -/
theorem c2_aggregation_no_deletes (src : List KvTriple)
    (hnd : ∀ t ∈ src, t.deleted = false) :
    (set_value_from_iter src).length
        = (dedup_first (src.map KvTriple.key)).length
    ∧ (∀ k v, values_of src k = [v] →
        (set_value_from_iter src).lookup k = some (.str v))
    ∧ (∀ k, 1 < count_key src k →
        (set_value_from_iter src).lookup k = some (.arr (values_of src k))
        ∧ (values_of src k).length = count_key src k) := by
  refine ⟨?_, ?_, ?_⟩
  · rw [svfi_characterization]
    simp
  · intro k v h
    exact svfi_lookup_scalar src k v h
  · intro k hgt
    have hmem : k ∈ src.map KvTriple.key := by
      rw [mem_keys_iff_count_pos]
      omega
    refine ⟨?_, values_of_length src k⟩
    rw [svfi_lookup src k hmem]
    unfold entry_for
    rw [if_neg (by omega), visible_eq_values_of_no_delete src k hnd]

/-- Witness for C2 at the spec's own example `a=1&a=2&b=3`. -/
theorem c2_aggregation_no_deletes_witness :
    (set_value_from_iter
        [⟨"a", "1", false⟩, ⟨"a", "2", false⟩, ⟨"b", "3", false⟩]).length = 2
    ∧ (set_value_from_iter
        [⟨"a", "1", false⟩, ⟨"a", "2", false⟩, ⟨"b", "3", false⟩]).lookup "b"
        = some (.str "3")
    ∧ (set_value_from_iter
        [⟨"a", "1", false⟩, ⟨"a", "2", false⟩, ⟨"b", "3", false⟩]).lookup "a"
        = some (.arr ["1", "2"]) := by
  have thm := c2_aggregation_no_deletes
    [⟨"a", "1", false⟩, ⟨"a", "2", false⟩, ⟨"b", "3", false⟩] (by decide)
  exact ⟨thm.1.trans (by decide),
    thm.2.1 "b" "3" (by decide),
    ((thm.2.2 "a" (by decide)).1).trans (by decide)⟩

/-- C1 is false as stated: the single delete-marked occurrence of key
`k` produces a scalar string entry carrying the deleted value, not an
array entry of length 0 (collection.cpp lines 129-135 ignore
`is_delete()` on the single-occurrence fast path). -/
theorem c1_single_deleted_counterexample :
    (set_value_from_iter [⟨"k", "v", true⟩]).lookup "k"
        ≠ some (WafEntry.arr [])
    ∧ set_value_from_iter [⟨"k", "v", true⟩] = [("k", WafEntry.str "v")] := by
  exact ⟨by decide, by decide⟩

/-- C1 (amended): a key whose occurrences are all delete-marked is still
present in the aggregated map; with at least two occurrences it appears
as an array entry of length 0, while with exactly one occurrence it
appears as a scalar string entry holding the deleted value. -/
theorem c1_amended_all_deleted (src : List KvTriple) (k : String)
    (hall : ∀ t ∈ src, t.key = k → t.deleted = true) :
    (2 ≤ count_key src k →
      (set_value_from_iter src).lookup k = some (.arr []))
    ∧ (∀ v, values_of src k = [v] →
      (set_value_from_iter src).lookup k = some (.str v)) := by
  constructor
  · intro hge
    have hmem : k ∈ src.map KvTriple.key := by
      rw [mem_keys_iff_count_pos]
      omega
    rw [svfi_lookup src k hmem]
    unfold entry_for
    rw [if_neg (by omega)]
    have hfl : src.filter (fun t => t.key == k) ≠ [] := by
      intro hnil
      have : count_key src k = 0 := by
        simp [count_key, hnil]
      omega
    have hfd : ∀ t ∈ src.filter (fun t => t.key == k), t.deleted = true := by
      intro t ht
      have hts : t ∈ src := List.mem_of_mem_filter ht
      have htk : t.key = k := by
        have := List.of_mem_filter ht
        simpa using this
      exact hall t hts htk
    unfold visible_values
    rw [foldl_vstep_all_deleted _ hfl hfd []]
  · intro v h
    exact svfi_lookup_scalar src k v h

/-- Witness for the amended C1: two all-deleted occurrences give an empty
array entry; one deleted occurrence gives a scalar entry. -/
theorem c1_amended_all_deleted_witness :
    (set_value_from_iter [⟨"k", "a", true⟩, ⟨"k", "b", true⟩]).lookup "k"
        = some (WafEntry.arr [])
    ∧ (set_value_from_iter [⟨"x", "v", true⟩]).lookup "x"
        = some (WafEntry.str "v") :=
  ⟨(c1_amended_all_deleted [⟨"k", "a", true⟩, ⟨"k", "b", true⟩] "k"
      (by decide)).1 (by decide),
   (c1_amended_all_deleted [⟨"x", "v", true⟩] "x" (by decide)).2 "v" (by decide)⟩

/-!
## Client IP slot

`req_serializer::set_client_ip` (collection.cpp, lines 314-328) receives
the result of the external `ClientIp::resolve()` and writes the
`http.client_ip` slot.
-/

/-- An operation performed on the `http.client_ip` map slot.  A
`make_string_of` action records the optional it dereferences, so
`make_string_of none` marks a read of an absent resolver result. -/
inductive ClientIpAction where
  | make_null
  | make_string_of (resolved : Option String)
deriving DecidableEq, Repr

/-- `req_serializer::set_client_ip` given the resolver result: the calls
performed on the slot, in order.  The `make_null` branch does not return,
so `make_string(*cl_ip)` runs unconditionally afterwards. -/
def set_client_ip (cl_ip : Option String) : List ClientIpAction :=
  (if cl_ip.isNone then [ClientIpAction.make_null] else [])
    ++ [ClientIpAction.make_string_of cl_ip]

/-- C3 fails on the code: when the resolver yields no address, the slot is
made Null but the function then still dereferences the empty optional and
calls `make_string` on it — the early return after `make_null()` is
missing in the source. -/
theorem c3_absent_client_ip_eval :
    set_client_ip none
        = [ClientIpAction.make_null, ClientIpAction.make_string_of none]
    ∧ set_client_ip none ≠ [ClientIpAction.make_null] :=
  ⟨rfl, by decide⟩

/-!
## Header iterator

`req_serializer::header_key_value_iter` (collection.cpp, lines 174-257)
walks an nginx header list, lower-casing names and skipping one excluded
name — but the skip test runs only inside `operator++`; the constructor
and `reset()` position the iterator on the first element unchecked.
-/

/-- ASCII lower-casing of a header name: nginx's lowcased key for request
headers and `safe_lowcase_key`'s transform for response headers both map
only the letters A-Z. -/
def lc_char (c : Char) : Char :=
  if 'A' ≤ c ∧ c ≤ 'Z' then Char.ofNat (c.toNat + 32) else c

def lc (s : String) : String :=
  String.mk (s.data.map lc_char)

/-- The skip loop of `operator++`: advance while the current position
holds a header whose lower-cased key equals the excluded name.  `fuel`
bounds the loop; `hs.length` always suffices. -/
def hdr_skip (hs : List (String × String)) (ex : String) :
    Nat → Nat → Nat
  | pos, 0 => pos
  | pos, fuel + 1 =>
    if h : pos < hs.length then
      if lc (hs.get ⟨pos, h⟩).1 = ex then hdr_skip hs ex (pos + 1) fuel
      else pos
    else pos

/-- `operator++` from position `pos`: step once, then skip excluded
headers. -/
def hdr_advance (hs : List (String × String)) (ex : String) (pos : Nat) : Nat :=
  hdr_skip hs ex (pos + 1) hs.length

/-- Traversal from position `pos`: yield `operator*` (lower-cased key and
value) of the current element, advance, repeat until `ended()`. -/
def hdr_traverse_from (hs : List (String × String)) (ex : String) :
    Nat → Nat → List (String × String)
  | _, 0 => []
  | pos, fuel + 1 =>
    if h : pos < hs.length then
      (lc (hs.get ⟨pos, h⟩).1, (hs.get ⟨pos, h⟩).2)
        :: hdr_traverse_from hs ex (hdr_advance hs ex pos) fuel
    else []

/-- The (key, value) pairs a full traversal yields after construction or
`reset()`. -/
def hdr_traverse (hs : List (String × String)) (ex : String) :
    List (String × String) :=
  hdr_traverse_from hs ex 0 hs.length

/-- C4 fails on the code: with the excluded name (case-insensitively) in
first position, the traversal yields the excluded header, because neither
the constructor nor `reset()` performs the exclusion check — only
`operator++` does, as the second conjunct shows for later positions. -/
theorem c4_excluded_first_header_eval :
    hdr_traverse [("Cookie", "x")] "cookie" = [("cookie", "x")]
    ∧ hdr_traverse [("X", "1"), ("Cookie", "c"), ("Y", "2")] "cookie"
        = [("x", "1"), ("y", "2")] :=
  ⟨by decide, by decide⟩

/-!
## Response status formatting

`req_serializer::set_response_status` (collection.cpp, lines 330-368).
-/

/-- The string stored in the `server.response.status` slot for a numeric
status: six precomputed constants, a digit-by-digit three-character
rendering for the rest of [100,599], and "0" outside that range. -/
def set_response_status (status : Nat) : String :=
  if status = 200 then "200"
  else if status = 404 then "404"
  else if status = 301 then "301"
  else if status = 302 then "302"
  else if status = 303 then "303"
  else if status = 201 then "201"
  else if status < 100 ∨ status > 599 then "0"
  else
    let d2 := status % 10
    let s1 := status / 10
    let d1 := s1 % 10
    let d0 := s1 / 10
    String.mk [Char.ofNat (48 + d0), Char.ofNat (48 + d1), Char.ofNat (48 + d2)]

/-- C7: every status in [100,599] — the six precomputed ones included —
formats as its exact decimal representation, and everything outside that
range formats as "0". -/
theorem c7_response_status (status : Nat) :
    (100 ≤ status ∧ status ≤ 599 →
      set_response_status status = Nat.repr status)
    ∧ (status < 100 ∨ 599 < status → set_response_status status = "0") := by
  constructor
  · rintro ⟨h1, h2⟩
    have hb : ∀ s : Nat, s < 600 → 100 ≤ s →
        set_response_status s = Nat.repr s := by decide
    exact hb status (by omega) h1
  · intro h
    unfold set_response_status
    split_ifs <;> first | rfl | (exfalso; omega)

/-- Witness for C7 at the spec's examples: 200, 418, 999, 42. -/
theorem c7_response_status_witness :
    set_response_status 200 = "200" ∧ set_response_status 418 = "418"
    ∧ set_response_status 999 = "0" ∧ set_response_status 42 = "0" :=
  ⟨((c7_response_status 200).1 ⟨by decide, by decide⟩).trans (by decide),
   ((c7_response_status 418).1 ⟨by decide, by decide⟩).trans (by decide),
   (c7_response_status 999).2 (by decide),
   (c7_response_status 42).2 (by decide)⟩

/-!
## Accept-header parsing and content negotiation

`block_resp::accept_entry_iter` and `block_resp::determine_ct`
(blocking.cpp, lines 72-255).  The q-value is a C `double`; the model
keeps finite values as exact rationals and represents the special values
NaN and ±HUGE_VAL explicitly, with IEEE comparison semantics (every
comparison involving NaN is false).
-/

/-- A `double` as far as the q-value logic observes it: NaN, ±infinity
(`HUGE_VAL`), or a finite value kept as an exact rational. -/
inductive Fp where
  | nan
  | inf
  | neg_inf
  | val (q : ℚ)
deriving DecidableEq, Repr

/-- IEEE `==` on the modelled doubles: NaN compares false with
everything, itself included. -/
def fp_eq : Fp → Fp → Bool
  | .nan, _ => false
  | _, .nan => false
  | .inf, .inf => true
  | .inf, _ => false
  | _, .inf => false
  | .neg_inf, .neg_inf => true
  | .neg_inf, _ => false
  | _, .neg_inf => false
  | .val a, .val b => decide (a = b)

/-- IEEE `<=` on the modelled doubles. -/
def fp_le : Fp → Fp → Bool
  | .nan, _ => false
  | _, .nan => false
  | .neg_inf, _ => true
  | _, .neg_inf => false
  | .inf, .inf => true
  | .val _, .inf => true
  | .inf, .val _ => false
  | .val a, .val b => decide (a ≤ b)

/-- IEEE `<` on the modelled doubles. -/
def fp_lt : Fp → Fp → Bool
  | .nan, _ => false
  | _, .nan => false
  | .neg_inf, .neg_inf => false
  | .neg_inf, _ => true
  | _, .neg_inf => false
  | .inf, .inf => false
  | .val _, .inf => true
  | .inf, .val _ => false
  | .val a, .val b => decide (a < b)

/-- Membership in the interval (0,1] under IEEE comparisons (false for
NaN). -/
def fp_in_unit (q : Fp) : Bool :=
  fp_lt (.val 0) q && fp_le q (.val 1)

/-- `std::isspace` in the C locale. -/
def is_space (c : Char) : Bool :=
  c == ' ' || c == '\t' || c == '\n' || c == '\x0b' || c == '\x0c' || c == '\r'

def is_digit (c : Char) : Bool :=
  decide ('0' ≤ c ∧ c ≤ '9')

/-- Front loop of `accept_entry_iter::trim` (blocking.cpp 178-186):
`sv.front()` is evaluated before the loop test, so reaching the empty
view is an out-of-bounds read, reported as `none`. -/
def trim_front : List Char → Option (List Char)
  | [] => none
  | c :: cs => if is_space c then trim_front cs else some (c :: cs)

/-- `accept_entry_iter::trim`: strip whitespace from the front, then from
the back; either loop reads out of bounds (`none`) when the view runs
empty. -/
def trim (s : List Char) : Option (List Char) :=
  match trim_front s with
  | none => none
  | some s1 => (trim_front s1.reverse).map List.reverse

/-- Consume a run of decimal digits: accumulated value, number of digits
consumed, rest of the input. -/
def parse_digits : List Char → Nat → Nat → (Nat × Nat × List Char)
  | [], acc, n => (acc, n, [])
  | c :: cs, acc, n =>
    if is_digit c then parse_digits cs (acc * 10 + (c.toNat - 48)) (n + 1)
    else (acc, n, c :: cs)

/-- Case-insensitive prefix test (`pat` given in lowercase). -/
def ci_matches (pat : List Char) (s : List Char) : Bool :=
  match pat, s with
  | [], _ => true
  | _ :: _, [] => false
  | p :: ps, c :: cs => (lc_char c == p) && ci_matches ps cs

/-- Model of C `strtod` on the decimal, infinity and nan forms: skip
leading whitespace, optional sign, then `nan`, `inf`, or
`digits[.digits][e[sign]digits]`; `none` means no conversion was
performed.  Finite results are exact rationals: the model abstracts from
binary rounding (and hence from overflow to `HUGE_VAL`, which the reset
logic subsumes under the `> 1` test). -/
def strtod_model (s : List Char) : Option Fp :=
  let s1 := s.dropWhile is_space
  let signed : Bool × List Char :=
    match s1 with
    | '-' :: rest => (true, rest)
    | '+' :: rest => (false, rest)
    | _ => (false, s1)
  let neg := signed.1
  let s2 := signed.2
  if ci_matches ['n', 'a', 'n'] s2 then some .nan
  else if ci_matches ['i', 'n', 'f'] s2 then
    some (if neg then .neg_inf else .inf)
  else
    let ipart := parse_digits s2 0 0
    let fpart : Nat × Nat × List Char :=
      match ipart.2.2 with
      | '.' :: rest => parse_digits rest 0 0
      | other => (0, 0, other)
    if ipart.2.1 = 0 ∧ fpart.2.1 = 0 then none
    else
      let fdigits := fpart.2.1
      let num0 : Nat := ipart.1 * 10 ^ fdigits + fpart.1
      let snum : Int := if neg then -(num0 : Int) else (num0 : Int)
      let epart : Int × Nat :=
        match fpart.2.2 with
        | 'e' :: rest | 'E' :: rest =>
          match rest with
          | '-' :: r2 =>
            let ed := parse_digits r2 0 0
            (-(ed.1 : Int), ed.2.1)
          | '+' :: r2 =>
            let ed := parse_digits r2 0 0
            ((ed.1 : Int), ed.2.1)
          | r2 =>
            let ed := parse_digits r2 0 0
            ((ed.1 : Int), ed.2.1)
        | _ => (0, 0)
      let expo : Int := if epart.2 = 0 then 0 else epart.1
      if 0 ≤ expo then
        some (.val (mkRat (snum * ((10 ^ expo.toNat : Nat) : Int))
          (10 ^ fdigits)))
      else
        some (.val (mkRat snum (10 ^ fdigits * 10 ^ (-expo).toNat)))

/-- `string_view::find(char)`. -/
def find_char (c : Char) : List Char → Option Nat
  | [] => none
  | x :: xs => if x = c then some 0 else (find_char c xs).map (· + 1)

/-- `string_view::find("q=")`: index of the first occurrence. -/
def find_q_eq : List Char → Option Nat
  | 'q' :: '=' :: _ => some 0
  | _ :: xs => (find_q_eq xs).map (· + 1)
  | [] => none

/-- `block_resp::accept_entry` as produced per segment. -/
structure AcceptEntry where
  type : List Char
  subtype : List Char
  qvalue : Fp
deriving DecidableEq, Repr

/-- The q-value computed from the parameter part of a segment (the
characters following the first ';'): locate `q=` (first occurrence only,
accepted when at position 0 or preceded by a space), run `strtod` on what
follows, and reset to 1.0 on no conversion, `== HUGE_VAL`, `<= 0` or
`> 1` (blocking.cpp 140-150). -/
def parse_q (sv2 : List Char) : Fp :=
  match find_q_eq sv2 with
  | none => .val 1
  | some q_pos =>
    if q_pos = 0 ∨ sv2.get? (q_pos - 1) = some ' ' then
      match strtod_model (sv2.drop (q_pos + 2)) with
      | none => .val 1
      | some q0 =>
        if fp_eq q0 .inf || fp_le q0 (.val 0) || fp_lt (.val 1) q0 then .val 1
        else q0
    else .val 1

/-- `accept_entry_iter::operator*` (blocking.cpp 120-153): parse one
comma-separated segment.  `none` marks the out-of-bounds access inside
`trim` (see C10). -/
def parse_accept_entry (seg : List Char) : Option AcceptEntry :=
  match find_char '/' seg with
  | none => some { type := [], subtype := [], qvalue := .val 1 }
  | some slash_pos =>
    match trim (seg.take slash_pos) with
    | none => none
    | some ty =>
      match find_char ';' (seg.drop (slash_pos + 1)) with
      | none =>
        match trim (seg.drop (slash_pos + 1)) with
        | none => none
        | some st => some { type := ty, subtype := st, qvalue := .val 1 }
      | some semi_pos =>
        match trim ((seg.drop (slash_pos + 1)).take semi_pos) with
        | none => none
        | some st =>
          some { type := ty, subtype := st,
                 qvalue := parse_q ((seg.drop (slash_pos + 1)).drop (semi_pos + 1)) }

/-- The comma-separated traversal of `accept_entry_iter`: an empty
header yields one empty segment, and a trailing comma yields a final
empty segment, exactly as the position/`find_end` logic does. -/
def split_segments_aux : List Char → List Char → List (List Char)
  | [], acc => [acc.reverse]
  | c :: rest, acc =>
    if c = ',' then acc.reverse :: split_segments_aux rest []
    else split_segments_aux rest (c :: acc)

def split_segments (s : List Char) : List (List Char) :=
  split_segments_aux s []

/-- `accept_entry::specificity` (the source's `partial` rank is called
`part` here), ordered none < asterisk < part < full. -/
inductive Specificity where
  | none
  | asterisk
  | part
  | full
deriving DecidableEq, Repr

def spec_rank : Specificity → Nat
  | .none => 0
  | .asterisk => 1
  | .part => 2
  | .full => 3

/-- `accept_entry::is_more_specific`: strict comparison of the underlying
rank. -/
def is_more_specific (a b : Specificity) : Bool :=
  decide (spec_rank b < spec_rank a)

/-- The candidate-tracking state of `determine_ct`'s loop. -/
structure NegState where
  json_spec : Specificity
  html_spec : Specificity
  json_q : Fp
  json_pos : Nat
  html_q : Fp
  html_pos : Nat
deriving DecidableEq, Repr

/-- Zero-initialised loop state (`specificity json_spec{}`, q-values
0.0, positions 0). -/
def neg_init : NegState :=
  { json_spec := .none, html_spec := .none,
    json_q := .val 0, json_pos := 0,
    html_q := .val 0, html_pos := 0 }

/-- One loop iteration of `determine_ct` (blocking.cpp 204-243): the
`*/*` segment may update both candidates; `text/*`, `text/html`,
`application/*` and `application/json` each update one candidate when
strictly more specific than its current best. -/
def neg_step (st : NegState) (pos : Nat) (ae : AcceptEntry) : NegState :=
  if ae.type = ['*'] ∧ ae.subtype = ['*'] then
    let st1 :=
      if is_more_specific .asterisk st.json_spec then
        { st with json_spec := .asterisk, json_q := ae.qvalue, json_pos := pos }
      else st
    if is_more_specific .asterisk st1.html_spec then
      { st1 with html_spec := .asterisk, html_q := ae.qvalue, html_pos := pos }
    else st1
  else if ae.type = "text".data ∧ ae.subtype = ['*'] then
    if is_more_specific .part st.html_spec then
      { st with html_spec := .part, html_q := ae.qvalue, html_pos := pos }
    else st
  else if ae.type = "text".data ∧ ae.subtype = "html".data then
    if is_more_specific .full st.html_spec then
      { st with html_spec := .full, html_q := ae.qvalue, html_pos := pos }
    else st
  else if ae.type = "application".data ∧ ae.subtype = ['*'] then
    if is_more_specific .part st.json_spec then
      { st with json_spec := .part, json_q := ae.qvalue, json_pos := pos }
    else st
  else if ae.type = "application".data ∧ ae.subtype = "json".data then
    if is_more_specific .full st.json_spec then
      { st with json_spec := .full, json_q := ae.qvalue, json_pos := pos }
    else st
  else st

def scan_from (st : NegState) (pos : Nat) : List AcceptEntry → NegState
  | [] => st
  | ae :: rest => scan_from (neg_step st pos ae) (pos + 1) rest

/-- The loop of `determine_ct` over all parsed segments. -/
def scan_entries (entries : List AcceptEntry) : NegState :=
  scan_from neg_init 0 entries

/-- Resolved response content type (`block_resp::ct`). -/
inductive RespCt where
  | HTML
  | JSON
  | NONE
deriving DecidableEq, Repr

/-- The final comparison of `determine_ct` (blocking.cpp 245-254). -/
def neg_decide (st : NegState) : RespCt :=
  if fp_lt st.json_q st.html_q then .HTML
  else if fp_lt st.html_q st.json_q then .JSON
  else if st.html_pos < st.json_pos then .HTML
  else .JSON

/-- Parse every segment of an Accept header; `none` if any segment's
parse reaches the `trim` out-of-bounds access. -/
def parse_accept_header (s : String) : Option (List AcceptEntry) :=
  (split_segments s.data).mapM parse_accept_entry

/-- `block_resp::determine_ct` (blocking.cpp 189-255): `none` input
means the request has no Accept header; a `none` result marks the
undefined behaviour inside `trim`. -/
def determine_ct (accept : Option String) : Option RespCt :=
  match accept with
  | none => some .JSON
  | some s =>
    match parse_accept_header s with
    | none => none
    | some entries => some (neg_decide (scan_entries entries))

theorem fp_lt_asymm (a b : Fp) (h : fp_lt a b = true) : fp_lt b a = false := by
  cases a <;> cases b <;> simp_all [fp_lt]
  exact le_of_lt h

theorem fp_lt_self_eq_false (a : Fp) : fp_lt a a = false := by
  cases a <;> simp [fp_lt]

/-- C5: absent Accept header negotiates to JSON; the spec's example
negotiates to HTML; and after scanning, a strictly greater q-value wins
while an exact q tie is broken in favour of the candidate whose deciding
segment came earlier. -/
theorem c5_determine_ct (entries : List AcceptEntry) :
    determine_ct none = some RespCt.JSON
    ∧ determine_ct (some "text/html,application/json;q=0.9")
        = some RespCt.HTML
    ∧ (fp_lt (scan_entries entries).json_q (scan_entries entries).html_q
          = true →
        neg_decide (scan_entries entries) = RespCt.HTML)
    ∧ (fp_lt (scan_entries entries).html_q (scan_entries entries).json_q
          = true →
        neg_decide (scan_entries entries) = RespCt.JSON)
    ∧ ((scan_entries entries).html_q = (scan_entries entries).json_q →
        (scan_entries entries).html_pos < (scan_entries entries).json_pos →
        neg_decide (scan_entries entries) = RespCt.HTML)
    ∧ ((scan_entries entries).html_q = (scan_entries entries).json_q →
        (scan_entries entries).json_pos < (scan_entries entries).html_pos →
        neg_decide (scan_entries entries) = RespCt.JSON)
    ∧ (∀ s es, parse_accept_header s = some es →
        determine_ct (some s) = some (neg_decide (scan_entries es))) := by
  refine ⟨rfl, by decide, ?_, ?_, ?_, ?_, ?_⟩
  · intro h
    unfold neg_decide
    rw [if_pos h]
  · intro h
    unfold neg_decide
    rw [if_neg (by rw [fp_lt_asymm _ _ h]; exact Bool.false_ne_true),
      if_pos h]
  · intro hq hpos
    unfold neg_decide
    rw [hq, if_neg (by rw [fp_lt_self_eq_false]; exact Bool.false_ne_true),
      if_neg (by rw [fp_lt_self_eq_false]; exact Bool.false_ne_true),
      if_pos hpos]
  · intro hq hpos
    unfold neg_decide
    rw [hq, if_neg (by rw [fp_lt_self_eq_false]; exact Bool.false_ne_true),
      if_neg (by rw [fp_lt_self_eq_false]; exact Bool.false_ne_true),
      if_neg (by omega)]
  · intro s es h
    unfold determine_ct
    split
    · rename_i hp
      exact Option.noConfusion hp
    · rename_i s' hp
      cases Option.some.inj hp
      split
      · rename_i hp2
        rw [h] at hp2
        exact Option.noConfusion hp2
      · rename_i es' hp2
        rw [h] at hp2
        cases Option.some.inj hp2
        rfl

/-- Witness for C5: a scan where HTML's q-value strictly exceeds JSON's
decides HTML, and one with equal q-values and HTML's deciding segment
first decides HTML. -/
theorem c5_determine_ct_witness :
    neg_decide (scan_entries
      [⟨"text".data, "html".data, .val 1⟩,
       ⟨"application".data, "json".data, .val (mkRat 9 10)⟩]) = RespCt.HTML
    ∧ neg_decide (scan_entries
      [⟨"text".data, "html".data, .val 1⟩,
       ⟨"application".data, "json".data, .val 1⟩]) = RespCt.HTML :=
  ⟨(c5_determine_ct
      [⟨"text".data, "html".data, .val 1⟩,
       ⟨"application".data, "json".data, .val (mkRat 9 10)⟩]).2.2.1 (by decide),
   (c5_determine_ct
      [⟨"text".data, "html".data, .val 1⟩,
       ⟨"application".data, "json".data, .val 1⟩]).2.2.2.2.1
      (by decide) (by decide)⟩

theorem fp_in_unit_one : fp_in_unit (Fp.val 1) = true := by decide

/-- Whatever `strtod` produced, the reset logic leaves either NaN or a
value in (0,1]. -/
theorem parse_q_nan_or_unit (sv2 : List Char) :
    parse_q sv2 = Fp.nan ∨ fp_in_unit (parse_q sv2) = true := by
  unfold parse_q
  split
  · exact Or.inr fp_in_unit_one
  · split
    · split
      · exact Or.inr fp_in_unit_one
      · split
        · exact Or.inr fp_in_unit_one
        · rename_i q0 hs hreset
          cases q0 with
          | nan => exact Or.inl rfl
          | inf =>
            exfalso
            exact hreset (by decide)
          | neg_inf =>
            exfalso
            exact hreset (by decide)
          | val q =>
            refine Or.inr ?_
            have h2 : ¬ q ≤ 0 := fun hq =>
              hreset (by simp [fp_eq, fp_le, fp_lt, hq])
            have h3 : ¬ 1 < q := fun hq =>
              hreset (by simp [fp_eq, fp_le, fp_lt, hq])
            simp only [fp_in_unit, fp_lt, fp_le, Bool.and_eq_true,
              decide_eq_true_eq]
            constructor
            · linarith
            · linarith
    · exact Or.inr fp_in_unit_one

/-- C6 (amended): the q-value defaults to 1.0 when the `q=` parameter is
absent or unusable; a failed conversion, an infinite result (`HUGE_VAL`),
or an ordered value outside (0,1] resets it to 1.0; otherwise the parsed
value is kept — including NaN, which survives all three reset
comparisons.  Hence a parsed entry's q-value is NaN or lies in (0,1]. -/
theorem c6_qvalue_amended (seg sv2 : List Char) :
    (∀ e, parse_accept_entry seg = some e →
        e.qvalue = Fp.nan ∨ fp_in_unit e.qvalue = true)
    ∧ (find_q_eq sv2 = none → parse_q sv2 = Fp.val 1)
    ∧ (∀ q_pos, find_q_eq sv2 = some q_pos →
        ¬ (q_pos = 0 ∨ sv2.get? (q_pos - 1) = some ' ') →
        parse_q sv2 = Fp.val 1)
    ∧ (∀ q_pos, find_q_eq sv2 = some q_pos →
        (q_pos = 0 ∨ sv2.get? (q_pos - 1) = some ' ') →
        (strtod_model (sv2.drop (q_pos + 2)) = none → parse_q sv2 = Fp.val 1)
        ∧ (∀ q0, strtod_model (sv2.drop (q_pos + 2)) = some q0 →
            ((fp_eq q0 Fp.inf || fp_le q0 (Fp.val 0)
                || fp_lt (Fp.val 1) q0) = true →
              parse_q sv2 = Fp.val 1)
            ∧ ((fp_eq q0 Fp.inf || fp_le q0 (Fp.val 0)
                || fp_lt (Fp.val 1) q0) = false →
              parse_q sv2 = q0))) := by
  refine ⟨?_, ?_, ?_, ?_⟩
  · intro e he
    unfold parse_accept_entry at he
    split at he
    · cases he
      exact Or.inr fp_in_unit_one
    · split at he
      · exact Option.noConfusion he
      · split at he
        · split at he
          · exact Option.noConfusion he
          · cases he
            exact Or.inr fp_in_unit_one
        · split at he
          · exact Option.noConfusion he
          · cases he
            exact parse_q_nan_or_unit _
  · intro h
    unfold parse_q
    split
    · rfl
    · rename_i q_pos hfind
      rw [h] at hfind
      exact Option.noConfusion hfind
  · intro q_pos h hguard
    unfold parse_q
    split
    · rfl
    · rename_i q_pos' hfind
      rw [h] at hfind
      cases Option.some.inj hfind
      rw [if_neg hguard]
  · intro q_pos h hguard
    have hpq : parse_q sv2
        = (match strtod_model (sv2.drop (q_pos + 2)) with
           | none => Fp.val 1
           | some q0 =>
             if fp_eq q0 Fp.inf || fp_le q0 (Fp.val 0) || fp_lt (Fp.val 1) q0
             then Fp.val 1 else q0) := by
      unfold parse_q
      split
      · rename_i hfind
        rw [h] at hfind
        exact Option.noConfusion hfind
      · rename_i q_pos' hfind
        rw [h] at hfind
        cases Option.some.inj hfind
        rw [if_pos hguard]
    constructor
    · intro hstod
      rw [hpq]
      split
      · rfl
      · rename_i q0' hs
        rw [hstod] at hs
        exact Option.noConfusion hs
    · intro q0 hstod
      have hpq2 : parse_q sv2
          = (if fp_eq q0 Fp.inf || fp_le q0 (Fp.val 0) || fp_lt (Fp.val 1) q0
             then Fp.val 1 else q0) := by
        rw [hpq]
        split
        · rename_i hs
          rw [hstod] at hs
          exact Option.noConfusion hs
        · rename_i q0' hs
          rw [hstod] at hs
          cases Option.some.inj hs
          rfl
      constructor
      · intro hreset
        rw [hpq2, if_pos hreset]
      · intro hreset
        rw [hpq2,
          if_neg (show ¬ _ = true by rw [hreset]; exact Bool.false_ne_true)]

/-- Witness for the amended C6: `q=0.9` parses to 9/10; a `q=` whose
first occurrence is preceded by a non-space character is ignored and the
q-value stays 1.0. -/
theorem c6_qvalue_amended_witness :
    parse_q "q=0.9".data = Fp.val (mkRat 9 10)
    ∧ parse_q "level=1;q=0.9".data = Fp.val 1 :=
  ⟨((c6_qvalue_amended [] "q=0.9".data).2.2.2 0 (by decide)
      (by decide)).2 (Fp.val (mkRat 9 10)) (by decide) |>.2 (by decide),
   (c6_qvalue_amended [] "level=1;q=0.9".data).2.2.1 8 (by decide) (by decide)⟩

/-- C6 is false as stated: a q parameter parsing as NaN survives all
three reset comparisons (they are IEEE-false on NaN), so the parsed
entry keeps a q-value that is neither reset to 1.0 nor inside (0,1]. -/
theorem c6_nan_counterexample :
    (parse_accept_entry "text/html;q=nan".data).map AcceptEntry.qvalue
        = some Fp.nan
    ∧ (parse_accept_entry "text/html;q=nan".data).map
        (fun e => fp_in_unit e.qvalue) = some false :=
  ⟨by decide, by decide⟩

/-- C10 fails on the code: a segment whose type or subtype part is empty
or all whitespace makes the parser call `trim` on a view with no
non-whitespace character, and `trim`'s unchecked `front()`/`back()`
accesses then read out of bounds (`none` in the model).  A well-formed
segment parses fine. -/
theorem c10_trim_empty_eval :
    parse_accept_entry "/html".data = none
    ∧ parse_accept_entry "text/ ".data = none
    ∧ trim [] = none
    ∧ trim [' '] = none
    ∧ parse_accept_entry "text/html".data
        = some { type := "text".data, subtype := "html".data,
                 qvalue := Fp.val 1 } :=
  ⟨by decide, by decide, rfl, by decide, by decide⟩

/-!
## Blocking service

`blocking_service` (blocking.cpp, lines 291-401): process-wide singleton
with single-use initialisation, and the `block` renderer.
-/

/-- The built-in default HTML template (blocking.cpp, lines 258-283). -/
def default_template_html : String :=
  "<!DOCTYPE html><html lang=\"en\"><head><meta charset=\"UTF-8\"><meta name=\"viewport\" content=\"width=device-width,initial-scale=1\"><title>You\x27ve been blocked</title><style>a,body,div,html,span\x7bmargin:0;padding:0;border:0;font-size:100%;font:inherit;vertical-align:baseline\x7dbody\x7bbackground:-webkit-radial-gradient(26% 19%,circle,#fff,#f4f7f9);background:radial-gradient(circle at 26% 19%,#fff,#f4f7f9);display:-webkit-box;display:-ms-flexbox;display:flex;-webkit-box-pack:center;-ms-flex-pack:center;justify-content:center;-webkit-box-align:center;-ms-flex-align:center;align-items:center;-ms-flex-line-pack:center;align-content:center;width:100%;min-height:100vh;line-height:1;flex-direction:column\x7dp\x7bdisplay:block\x7dmain\x7btext-align:center;flex:1;display:-webkit-box;display:-ms-flexbox;display:flex;-webkit-box-pack:center;-ms-flex-pack:center;justify-content:center;-webkit-box-align:center;-ms-flex-align:center;align-items:center;-ms-flex-line-pack:center;align-content:center;flex-direction:column\x7dp\x7bfont-size:18px;line-height:normal;color:#646464;font-family:sans-serif;font-weight:400\x7da\x7bcolor:#4842b7\x7dfooter\x7bwidth:100%;text-align:center\x7dfooter p\x7bfont-size:16px\x7d</style></head><body><main><p>Sorry, you cannot access this page. Please contact the customer service team.</p></main><footer><p>Security provided by <a href=\"https://www.datadoghq.com/product/security-platform/application-security-monitoring/\" target=\"_blank\">Datadog</a></p></footer></body></html>"

/-- The built-in default JSON template (blocking.cpp, lines 285-288). -/
def default_template_json : String :=
  "\x7b\"errors\": [\x7b\"title\": \"You\x27ve been blocked\", \"detail\": \"Sorry, you cannot access this page. Please contact the customer service team. Security provided by Datadog.\"\x7d]\x7d"

/-- The state owned by the `blocking_service` singleton: the template
bytes served for HTML and JSON blocks. -/
structure BlockingService where
  templ_html : String
  templ_json : String
deriving DecidableEq, Repr

/-- The `blocking_service` constructor: use the built-in template, or
load the configured file (`load` models the filesystem read; an `error`
models the constructor throwing, which leaves `instance` unset). -/
def make_service (html_path json_path : Option String)
    (load : String → Except String String) : Except String BlockingService :=
  match (match html_path with
         | none => Except.ok default_template_html
         | some p => load p) with
  | .error e => .error e
  | .ok th =>
    match (match json_path with
           | none => Except.ok default_template_json
           | some p => load p) with
    | .error e => .error e
    | .ok tj => .ok { templ_html := th, templ_json := tj }

/-- `blocking_service::initialize` acting on the static `instance`:
returns the new value of `instance` and the error raised, if any.  A
raised error (second call, or template-load failure) leaves `instance`
exactly as it was. -/
def svc_install (inst : Option BlockingService)
    (html_path json_path : Option String)
    (load : String → Except String String) :
    Option BlockingService × Option String :=
  match inst with
  | some s => (some s, some "Blocking service already initialized")
  | none =>
    match make_service html_path json_path load with
    | .error e => (none, some e)
    | .ok svc => (some svc, none)

/-- C8: the first call installs the service instance; every subsequent
call fails with an error and leaves the published instance — template
bytes included — unchanged. -/
theorem c8_single_use_install (s : BlockingService)
    (html_path json_path : Option String)
    (load : String → Except String String) :
    svc_install none none none load
        = (some { templ_html := default_template_html,
                  templ_json := default_template_json }, none)
    ∧ (∀ svc, make_service html_path json_path load = Except.ok svc →
        svc_install none html_path json_path load = (some svc, none))
    ∧ svc_install (some s) html_path json_path load
        = (some s, some "Blocking service already initialized") := by
  refine ⟨rfl, ?_, rfl⟩
  intro svc h
  unfold svc_install
  rw [h]

/-- Witness for C8: a first call with no custom paths installs the
default templates; a second call errors and keeps them. -/
theorem c8_single_use_install_witness :
    svc_install none none none (fun _ => Except.error "fs")
        = (some { templ_html := default_template_html,
                  templ_json := default_template_json }, none)
    ∧ svc_install
        (some { templ_html := default_template_html,
                templ_json := default_template_json })
        none none (fun _ => Except.error "fs")
        = (some { templ_html := default_template_html,
                  templ_json := default_template_json },
           some "Blocking service already initialized") :=
  ⟨(c8_single_use_install
      { templ_html := default_template_html,
        templ_json := default_template_json }
      none none (fun _ => Except.error "fs")).2.1
      { templ_html := default_template_html,
        templ_json := default_template_json } rfl,
   (c8_single_use_install
      { templ_html := default_template_html,
        templ_json := default_template_json }
      none none (fun _ => Except.error "fs")).2.2⟩

/-- `block_spec::ct` policy supplied by the rule engine. -/
inductive SpecCt where
  | AUTO
  | HTML
  | JSON
  | NONE
deriving DecidableEq, Repr

/-- `dns::block_spec`. -/
structure BlockSpec where
  status : Int
  ct : SpecCt
  location : String
deriving DecidableEq, Repr

/-- `block_resp::calculate_for`: resolve the content-type policy (AUTO
negotiates against the Accept header; explicit values bypass
negotiation). -/
def calculate_for (spec : BlockSpec) (accept : Option String) :
    Option (Int × RespCt × String) :=
  match spec.ct with
  | .AUTO => (determine_ct accept).map (fun ct => (spec.status, ct, spec.location))
  | .HTML => some (spec.status, .HTML, spec.location)
  | .JSON => some (spec.status, .JSON, spec.location)
  | .NONE => some (spec.status, .NONE, spec.location)

/-- `block_resp::content_type_header`: the `Content-Type` value, empty
(no header) for NONE. -/
def content_type_header : RespCt → String
  | .HTML => "text/html;charset=utf-8"
  | .JSON => "application/json"
  | .NONE => ""

/-- The nginx calls `blocking_service::block` performs, in order. -/
inductive OutEvent where
  | discard_request_body
  | send_header
  | output_buffer (bytes : String) (last_buf : Bool)
  | finalize_request (code : Int)
deriving DecidableEq, Repr

/-- The response fields `block` sets on the request. -/
structure RespState where
  header_only : Bool
  status : Int
  content_type : String
  content_length : Int
  location : Option String
deriving DecidableEq, Repr

def NGX_OK : Int := 0
def NGX_ERROR : Int := -1
def NGX_DONE : Int := -4

/-- `blocking_service::block` (blocking.cpp, lines 305-357): `hdr_rc` is
the value returned by `ngx_http_send_header`, `alloc_ok` tells whether
the body-buffer allocation succeeds; `none` marks the undefined
behaviour reachable through AUTO content-type negotiation. -/
def block (svc : BlockingService) (spec : BlockSpec) (accept : Option String)
    (hdr_rc : Int) (alloc_ok : Bool) :
    Option (RespState × List OutEvent) :=
  match calculate_for spec accept with
  | none => none
  | some (status, ct, location) =>
    let templ : Option String :=
      match ct with
      | .HTML => some svc.templ_html
      | .JSON => some svc.templ_json
      | .NONE => none
    let header_only : Bool := ct = RespCt.NONE
    let st : RespState :=
      { header_only := header_only
        status := status
        content_type := content_type_header ct
        content_length :=
          match templ with
          | some t => (t.length : Int)
          | none => 0
        location := if location = "" then none else some location }
    if hdr_rc = NGX_ERROR ∨ NGX_OK < hdr_rc ∨ header_only = true then
      some (st, [OutEvent.discard_request_body, OutEvent.send_header,
                 OutEvent.finalize_request hdr_rc])
    else if alloc_ok = false then
      some (st, [OutEvent.discard_request_body, OutEvent.send_header,
                 OutEvent.finalize_request NGX_ERROR])
    else
      some (st, [OutEvent.discard_request_body, OutEvent.send_header,
                 OutEvent.output_buffer
                   (match templ with | some t => t | none => "") true,
                 OutEvent.finalize_request NGX_DONE])

/-- C9: blocking with content-type policy NONE produces a header-only
response with content length 0 and an empty content type, and finalizes
immediately after the header is sent, emitting no body buffer. -/
theorem c9_block_none (svc : BlockingService) (status : Int)
    (location : String) (accept : Option String) (hdr_rc : Int)
    (alloc_ok : Bool) :
    block svc ⟨status, .NONE, location⟩ accept hdr_rc alloc_ok
      = some ({ header_only := true, status := status, content_type := "",
                content_length := 0,
                location := if location = "" then none else some location },
              [OutEvent.discard_request_body, OutEvent.send_header,
               OutEvent.finalize_request hdr_rc]) := by
  unfold block calculate_for
  simp [content_type_header]

end NginxDatadog
